import Mathlib

/-!
Verification of the action signing and wire protocol of the
`react-native-hyperliquid` library (`src/utils/signing.ts`,
`src/utils/mpcSigning.ts`, `src/rest/exchange.ts`).

Modelling conventions (shallow embedding):

* JavaScript numbers are modelled by their exact rational values (`ℚ`).
  `Number.prototype.toFixed(8)` is modelled in its fixed-notation regime
  (|x| < 10^21, the range in which ECMA-262 specifies fixed notation);
  `parseFloat` of the produced fixed-notation string is modelled by the
  exact rational value of that decimal string.  JavaScript `-0` behaves
  exactly like `0` inside `toFixed` (ECMA-262 treats `-0` as non-negative
  there), so it is modelled by `0 : ℚ`.
* Byte buffers (`Uint8Array`) are modelled by `List Nat` with each entry a
  byte value; `TypedArray.prototype.set` and `DataView` writes are modelled
  by explicit overwrite-at-offset functions.
* The external collaborators that the source imports from libraries —
  `keccak256`, msgpack `encode`, `getBytes`, `ethers.Signature.from`, the
  wallet objects and the symbol-to-asset-index resolver — are parameters of
  the embedded functions; the code of this repository is the buffer
  assembly, typed-data assembly and dispatch around them.
-/

namespace Hyperliquid

deriving instance DecidableEq for Except

/-! ## Decimal digit machinery -/

/-- Little-endian decimal digits of a natural number, with explicit fuel
(the fuel `n + 1` always suffices). -/
def natDigitsRevFuel : Nat → Nat → List Nat
  | 0, _ => []
  | fuel + 1, n => if n < 10 then [n] else n % 10 :: natDigitsRevFuel fuel (n / 10)

/-- Big-endian decimal digits of a natural number (`[0]` for zero). -/
def natDigits (n : Nat) : List Nat :=
  (natDigitsRevFuel (n + 1) n).reverse

/-- Value of a big-endian digit list. -/
def digitsToNat (ds : List Nat) : Nat :=
  ds.foldl (fun a d => 10 * a + d) 0

/-- Value of a little-endian digit list. -/
def fromDigitsRev : List Nat → Nat
  | [] => 0
  | d :: ds => d + 10 * fromDigitsRev ds

/-! ## Characters and parsing -/

/-- Character of a single decimal digit. -/
def digitChar (d : Nat) : Char := Char.ofNat (48 + d)

/-- Numeric value of a decimal digit character. -/
def charToDigit (c : Char) : Nat := c.toNat - 48

/-- Big-endian decimal characters of a natural number. -/
def natChars (n : Nat) : List Char := (natDigits n).map digitChar

/-- Value of a list of decimal digit characters. -/
def digitsOfChars (cs : List Char) : Nat := digitsToNat (cs.map charToDigit)

/-- Fragment of `parseFloat`: value of an unsigned decimal string, integer
part up to an optional dot, then a fractional digit run.  The source only
applies `parseFloat` to the fixed-notation output of `toFixed`, which is of
exactly this shape (no exponent part). -/
def parseUnsignedQ (cs : List Char) : ℚ :=
  let ip := cs.takeWhile Char.isDigit
  let rest := cs.dropWhile Char.isDigit
  if rest.head? = some '.' then
    let fp := rest.tail.takeWhile Char.isDigit
    (digitsOfChars ip : ℚ) + (digitsOfChars fp : ℚ) / 10 ^ fp.length
  else (digitsOfChars ip : ℚ)

/-- Model of `parseFloat` on the strings produced by `toFixed`: an optional
leading minus sign followed by an unsigned decimal string. -/
def parseFloatQ (s : String) : ℚ :=
  if s.data.head? = some '-' then - parseUnsignedQ s.data.tail
  else parseUnsignedQ s.data

/-! ## toFixed -/

/-- ECMA-262 `Number.prototype.toFixed` digit selection for a non-negative
value: the integer `n` with `n / 10^f` closest to `y`, larger `n` on ties. -/
def toFixedDigits (f : Nat) (y : ℚ) : Nat :=
  (Int.floor (y * 10 ^ f + 1 / 2)).toNat

/-- Fixed-notation characters of `toFixed f y` for `y ≥ 0`: the decimal
digits of `toFixedDigits f y`, left-padded with zeros to at least `f + 1`
digits, with a dot inserted before the last `f` digits. -/
def toFixedPosChars (f : Nat) (y : ℚ) : List Char :=
  let m := natChars (toFixedDigits f y)
  let m := if m.length ≤ f then List.replicate (f + 1 - m.length) '0' ++ m else m
  m.take (m.length - f) ++ '.' :: m.drop (m.length - f)

/-- Model of `x.toFixed(f)` in the fixed-notation regime: negative values
format their negation behind a sign (ECMA-262 step 6; `-0` is not negative). -/
def toFixed (f : Nat) (x : ℚ) : String :=
  if x < 0 then ⟨'-' :: toFixedPosChars f (-x)⟩ else ⟨toFixedPosChars f x⟩

/-! ## The numeric wire encoder -/

/-- Model of the regex replacement in floatToWire (an anchored replace of an
optional dot followed by a non-empty run of zeros at the end of the string):
drop the trailing run of zero characters if non-empty, and the dot
immediately before it when the dot directly precedes that run. -/
def stripWireZeros (s : String) : String :=
  match s.data.reverse with
  | '0' :: _ =>
      match (s.data.reverse).dropWhile (fun c => c = '0') with
      | '.' :: r2 => ⟨r2.reverse⟩
      | r1 => ⟨r1.reverse⟩
  | _ => s

/-- Model of `floatToWire` (`signing.ts` line 275, `mpcSigning.ts` line 162):
format at 8 fractional digits, fail when the parse-back differs from the
input by at least `1e-12`, otherwise strip trailing zeros and normalize
`"-0"`. -/
def floatToWire (x : ℚ) : Except String String :=
  let rounded := toFixed 8 x
  if 1 / 10 ^ 12 ≤ |parseFloatQ rounded - x| then
    .error "floatToWire causes rounding"
  else
    let normalized := stripWireZeros rounded
    .ok (if normalized = "-0" then "0" else normalized)

/-- Model of `Math.round`: nearest integer, ties toward positive infinity. -/
def mathRound (y : ℚ) : ℤ := Int.floor (y + 1 / 2)

/-- Model of `floatToInt` (`signing.ts` line 293): scale by `10^power`,
fail when rounding moves the scaled value by at least `1e-3`. -/
def floatToInt (x : ℚ) (power : Nat) : Except String ℤ :=
  let withDecimals := x * 10 ^ power
  if 1 / 1000 ≤ |(mathRound withDecimals : ℚ) - withDecimals| then
    .error "floatToInt causes rounding"
  else
    .ok (mathRound withDecimals)

/-- Model of `floatToIntForHashing` (8 decimal places). -/
def floatToIntForHashing (x : ℚ) : Except String ℤ := floatToInt x 8

/-- Model of `floatToUsdInt` (6 decimal places). -/
def floatToUsdInt (x : ℚ) : Except String ℤ := floatToInt x 6

/-- Arithmetic value of the string `toFixed f x`: the selected digits over
`10 ^ f`, negated for negative inputs. -/
def toFixedVal (f : Nat) (x : ℚ) : ℚ :=
  if x < 0 then -((toFixedDigits f (-x) : ℚ) / 10 ^ f)
  else (toFixedDigits f x : ℚ) / 10 ^ f

/-! ## Order wire mapper -/

/-- Payload of the limit variant of an order type (a time-in-force tag). -/
structure LimitOrderInfo where
  tif : String
  deriving DecidableEq

/-- Payload of the trigger variant of an order type, before wire encoding. -/
structure TriggerOrderInfo where
  isMarket : Bool
  triggerPx : ℚ
  tpsl : String
  deriving DecidableEq

/-- Model of the `OrderType` input shape: two optional variant fields, as in
the TypeScript object with optional `limit` and `trigger` keys (`none` is an
absent, hence falsy, key). -/
structure OrderType where
  limit : Option LimitOrderInfo
  trigger : Option TriggerOrderInfo
  deriving DecidableEq

/-- Trigger variant after wire encoding: the trigger price has been
re-encoded through floatToWire into a string. -/
structure TriggerWireInfo where
  isMarket : Bool
  triggerPx : String
  tpsl : String
  deriving DecidableEq

/-- Order type as returned by orderTypeToWire. -/
structure WireOrderType where
  limit : Option LimitOrderInfo
  trigger : Option TriggerWireInfo
  deriving DecidableEq

/-- Model of `orderTypeToWire` (`signing.ts` line 35): the limit variant is
passed through; the trigger variant re-encodes its price; neither variant
set is an invalid order type.  A thrown exception is an `error` result. -/
def orderTypeToWire (orderType : OrderType) : Except String WireOrderType :=
  match orderType.limit with
  | some l => .ok { limit := some l, trigger := none }
  | none =>
    match orderType.trigger with
    | some t =>
        match floatToWire t.triggerPx with
        | .ok px =>
            .ok { limit := none,
                  trigger := some { isMarket := t.isMarket, triggerPx := px, tpsl := t.tpsl } }
        | .error e => .error e
    | none => .error "Invalid order type"

/-- Logical order, as accepted by the REST layer. -/
structure Order where
  coin : String
  is_buy : Bool
  sz : ℚ
  limit_px : ℚ
  order_type : OrderType
  reduce_only : Bool
  cloid : Option String
  deriving DecidableEq

/-- Wire-ready order.  The optional `c` key models the conditional
`orderWire.c = order.cloid` assignment: `none` is an absent key. -/
structure OrderWire where
  a : ℤ
  b : Bool
  p : String
  s : String
  r : Bool
  t : WireOrderType
  c : Option String
  deriving DecidableEq

/-- Model of `orderToWire` (`signing.ts` line 305): builds the wire struct in
the fixed key order, propagating any floatToWire or orderTypeToWire
exception, and sets the `c` key exactly when `cloid` is defined. -/
def orderToWire (order : Order) (asset : ℤ) : Except String OrderWire :=
  match floatToWire order.limit_px with
  | .error e => .error e
  | .ok p =>
    match floatToWire order.sz with
    | .error e => .error e
    | .ok s =>
      match orderTypeToWire order.order_type with
      | .error e => .error e
      | .ok t =>
          .ok { a := asset, b := order.is_buy, p := p, s := s,
                r := order.reduce_only, t := t, c := order.cloid }

/-! ## Byte buffers and the action hasher -/

/-- Big-endian base-256 digits of a natural number, fixed width `k`
(the value is taken modulo `256 ^ k`, as `DataView.setBigUint64` does for
`k = 8`). -/
def beBytes : Nat → Nat → List Nat
  | 0, _ => []
  | k + 1, n => beBytes k (n / 256) ++ [n % 256]

/-- Value of a big-endian byte list. -/
def fromBEBytes (l : List Nat) : Nat :=
  l.foldl (fun a b => 256 * a + b) 0

/-- Model of a `TypedArray.set` or `DataView` write: overwrite `src.length`
entries of `data` starting at `offset`. -/
def listSet (data : List Nat) (offset : Nat) (src : List Nat) : List Nat :=
  data.take offset ++ src ++ data.drop (offset + src.length)

/-- Model of a finite JavaScript number argument as far as `BigInt`
conversion is concerned: either an integer value, or some non-integral
finite value (for which `BigInt(x)` throws a RangeError). -/
inductive JsNum where
  | int (n : ℤ)
  | nonInt
  deriving DecidableEq

/-- Model of the `BigInt(nonce)` conversion inside actionHash. -/
def jsBigInt : JsNum → Except String ℤ
  | .int n => .ok n
  | .nonInt => .error "Cannot convert a non-integer number to a BigInt"

/-- Number of bytes following the msgpack bytes in the digest buffer. -/
def vaultExtra : Option (List Nat) → Nat
  | none => 9
  | some _ => 29

/-- Flag byte and, when present, address bytes closing the digest buffer. -/
def vaultTailBytes : Option (List Nat) → List Nat
  | none => [0]
  | some addr => 1 :: addr

/-- Buffer assembled by `actionHash` (`signing.ts` lines 59 to 70,
`mpcSigning.ts` lines 52 to 63) from the msgpack bytes of the action:
a zero-filled `Uint8Array` of length `msgPackBytes.length + 9` or `+ 29`,
overwritten by the msgpack bytes at offset 0, the nonce as an 8-byte
big-endian unsigned integer (`setBigUint64` reduces the BigInt modulo
`2 ^ 64`), one flag byte, and, when present, the 20 address bytes.
Addresses are modelled by their byte lists (the result of `getBytes`). -/
def actionHashData (msgPackBytes : List Nat) (vaultAddress : Option (List Nat))
    (nonce : ℤ) : List Nat :=
  let additionalBytesLength := match vaultAddress with | none => 9 | some _ => 29
  let data := List.replicate (msgPackBytes.length + additionalBytesLength) 0
  let data := listSet data 0 msgPackBytes
  let data := listSet data msgPackBytes.length (beBytes 8 (nonce.emod (2 ^ 64)).toNat)
  match vaultAddress with
  | none => listSet data (msgPackBytes.length + 8) [0]
  | some addr =>
      listSet (listSet data (msgPackBytes.length + 8) [1]) (msgPackBytes.length + 9) addr

/-- Model of `actionHash`: serialize the action with the external msgpack
encoder, assemble the digest buffer, and hash it with the external
Keccak-256 implementation.  The msgpack encoder and the hash are imported
library collaborators and are therefore parameters. -/
def actionHash {α : Type} (keccak256 : List Nat → String) (encode : α → List Nat)
    (action : α) (vaultAddress : Option (List Nat)) (nonce : JsNum) :
    Except String String :=
  match jsBigInt nonce with
  | .error e => .error e
  | .ok n => .ok (keccak256 (actionHashData (encode action) vaultAddress n))

/-! ## Typed-data assembler -/

/-- EIP-712 domain record.  The JavaScript domain objects carry exactly
these four fields (as records, their textual field order is immaterial
to EIP-712, which hashes the domain through its own fixed schema). -/
structure EIP712Domain where
  name : String
  version : String
  chainId : ℤ
  verifyingContract : String
  deriving DecidableEq

/-- One entry of an EIP-712 type schema: a field name and its type tag. -/
structure FieldDef where
  name : String
  type : String
  deriving DecidableEq

/-- Model of the fixed `phantomDomain` constant (`signing.ts` line 21,
`mpcSigning.ts` line 14). -/
def phantomDomain : EIP712Domain :=
  { name := "Exchange", version := "1", chainId := 1337,
    verifyingContract := "0x0000000000000000000000000000000000000000" }

/-- Model of the fixed `agentTypes` constant: a types map with the single
ordered `Agent` schema. -/
def agentTypes : List (String × List FieldDef) :=
  [("Agent", [{ name := "source", type := "string" },
              { name := "connectionId", type := "bytes32" }])]

/-- Message of the phantom-agent mode. -/
structure PhantomAgent where
  source : String
  connectionId : String
  deriving DecidableEq

/-- Model of `constructPhantomAgent`. -/
def constructPhantomAgent (hash : String) (isMainnet : Bool) : PhantomAgent :=
  { source := if isMainnet then "a" else "b", connectionId := hash }

/-- EIP-712 typed-data structure handed to the signer, generic in the
message type. -/
structure TypedData (μ : Type) where
  domain : EIP712Domain
  types : List (String × List FieldDef)
  primaryType : String
  message : μ

/-- Signature triple as produced by `ethers.Signature.from`. -/
structure Signature where
  r : String
  s : String
  v : ℤ
  deriving DecidableEq

/-- Model of `splitSig`: destructure the parsed signature (the parser
`ethers.Signature.from` is an external library collaborator, hence a
parameter) and rebuild the `r`, `s`, `v` record. -/
def splitSig (sigFrom : String → Signature) (sig : String) : Signature :=
  let parsed := sigFrom sig
  { r := parsed.r, s := parsed.s, v := parsed.v }

/-- Model of a JavaScript wallet object as seen by `signInner`: the arity
of its `signTypedData` member (`none` models an object without a callable
`signTypedData`), together with the behaviour of a client-style invocation
(single params object carrying domain, types, primaryType, message) and of
a direct invocation (domain, types, message — no primary type). -/
structure JsWallet (μ : Type) where
  signTypedDataArity : Option Nat
  signAsClient : EIP712Domain → List (String × List FieldDef) → String → μ → String
  signAsDirect : EIP712Domain → List (String × List FieldDef) → μ → String

/-- Model of `isAbstractWalletClient` (`signing.ts` line 369): a callable
`signTypedData` member of arity 1. -/
def isAbstractWalletClient {μ : Type} (client : JsWallet μ) : Bool :=
  client.signTypedDataArity == some 1

/-- Model of `isAbstractSigner` (`signing.ts` line 380): a callable
`signTypedData` member of arity 3. -/
def isAbstractSigner {μ : Type} (client : JsWallet μ) : Bool :=
  client.signTypedDataArity == some 3

/-- Model of `signInner` (`signing.ts` line 243): dispatch on the detected
signer shape, normalize the raw signature through `splitSig` in both
branches, and fail on an unsupported wallet. -/
def signInner {μ : Type} (wallet : JsWallet μ) (sigFrom : String → Signature)
    (data : TypedData μ) : Except String Signature :=
  if isAbstractWalletClient wallet then
    .ok (splitSig sigFrom
      (wallet.signAsClient data.domain data.types data.primaryType data.message))
  else if isAbstractSigner wallet then
    .ok (splitSig sigFrom (wallet.signAsDirect data.domain data.types data.message))
  else
    .error "Unsupported wallet for signing typed data"

/-- Model of `signL1Action` (`signing.ts` line 78): hash the action, wrap the
digest in a phantom agent, and sign the fixed phantom-domain typed data. -/
def signL1Action {α : Type} (keccak256 : List Nat → String) (encode : α → List Nat)
    (wallet : JsWallet PhantomAgent) (sigFrom : String → Signature) (action : α)
    (activePool : Option (List Nat)) (nonce : JsNum) (isMainnet : Bool) :
    Except String Signature :=
  match actionHash keccak256 encode action activePool nonce with
  | .error e => .error e
  | .ok hash =>
      signInner wallet sigFrom
        { domain := phantomDomain, types := agentTypes, primaryType := "Agent",
          message := constructPhantomAgent hash isMainnet }

/-- Result record of `createL1ActionTypedData` (`signing.ts` line 222): the
typed data plus the action, nonce, vault address and hash for reference. -/
structure L1ActionTypedData (α : Type) where
  domain : EIP712Domain
  types : List (String × List FieldDef)
  primaryType : String
  message : PhantomAgent
  action : α
  nonce : JsNum
  vaultAddress : Option (List Nat)
  hash : String

/-- Model of `createL1ActionTypedData`. -/
def createL1ActionTypedData {α : Type} (keccak256 : List Nat → String)
    (encode : α → List Nat) (action : α) (vaultAddress : Option (List Nat))
    (nonce : JsNum) (isMainnet : Bool) : Except String (L1ActionTypedData α) :=
  match actionHash keccak256 encode action vaultAddress nonce with
  | .error e => .error e
  | .ok hash =>
      .ok { domain := phantomDomain, types := agentTypes, primaryType := "Agent",
            message := constructPhantomAgent hash isMainnet,
            action := action, nonce := nonce, vaultAddress := vaultAddress,
            hash := hash }

/-! ## User-signed actions -/

/-- Hexadecimal value of one character, if any. -/
def hexDigitVal (c : Char) : Option Nat :=
  if '0' ≤ c ∧ c ≤ '9' then some (c.toNat - 48)
  else if 'a' ≤ c ∧ c ≤ 'f' then some (c.toNat - 87)
  else if 'A' ≤ c ∧ c ≤ 'F' then some (c.toNat - 55)
  else none

/-- Model of `hexToNumber` (`signing.ts` line 350), that is of
`parseInt(hex, 16)` on the well-formed `0x`-prefixed chain-id strings the
source passes it: strip the prefix and read the maximal hex-digit run. -/
def hexToNumber (hex : String) : ℤ :=
  let cs := match hex.data with
    | '0' :: 'x' :: r => r
    | '0' :: 'X' :: r => r
    | l => l
  ((cs.takeWhile (fun c => (hexDigitVal c).isSome)).foldl
    (fun a c => 16 * a + ((hexDigitVal c).getD 0)) 0 : Nat)

/-- Model of a user-signed action object: the `signatureChainId` the domain
reads, the mutable `hyperliquidChain` slot (`none` models an absent key),
and the remaining payload fields, which signing never touches. -/
structure UserAction where
  signatureChainId : String
  hyperliquidChain : Option String
  fields : List (String × String)
  deriving DecidableEq

/-- Stamp of `signUserSignedAction` and `createAgentTypedData`: the
in-place assignment `action.hyperliquidChain = isMainnet ? Mainnet :
Testnet`. -/
def stampChain (action : UserAction) (isMainnet : Bool) : UserAction :=
  { action with hyperliquidChain := some (if isMainnet then "Mainnet" else "Testnet") }

/-- Domain built by the user-signed path from the (stamped) action. -/
def userSignedDomain (action : UserAction) : EIP712Domain :=
  { name := "HyperliquidSignTransaction", version := "1",
    chainId := hexToNumber action.signatureChainId,
    verifyingContract := "0x0000000000000000000000000000000000000000" }

/-- Model of `signUserSignedAction` (`signing.ts` line 97).  The source
mutates the caller-supplied action object in place before signing; the
second component of the result is the state of that same object as the
caller observes it after the call. -/
def signUserSignedAction (wallet : JsWallet UserAction)
    (sigFrom : String → Signature) (action : UserAction)
    (payloadTypes : List FieldDef) (primaryType : String) (isMainnet : Bool) :
    Except String Signature × UserAction :=
  let stamped := stampChain action isMainnet
  let data : TypedData UserAction :=
    { domain := userSignedDomain stamped,
      types := [(primaryType, payloadTypes)],
      primaryType := primaryType,
      message := stamped }
  (signInner wallet sigFrom data, stamped)

/-- Payload schema of the usd-send and withdraw wrappers. -/
def usdSendPayloadTypes : List FieldDef :=
  [{ name := "hyperliquidChain", type := "string" },
   { name := "destination", type := "string" },
   { name := "amount", type := "string" },
   { name := "time", type := "uint64" }]

/-- Payload schema of the agent-approval wrapper. -/
def approveAgentPayloadTypes : List FieldDef :=
  [{ name := "hyperliquidChain", type := "string" },
   { name := "agentAddress", type := "address" },
   { name := "agentName", type := "string" },
   { name := "nonce", type := "uint64" }]

/-- Model of `signUsdTransferAction` (`signing.ts` line 123). -/
def signUsdTransferAction (wallet : JsWallet UserAction)
    (sigFrom : String → Signature) (action : UserAction) (isMainnet : Bool) :
    Except String Signature × UserAction :=
  signUserSignedAction wallet sigFrom action usdSendPayloadTypes
    "HyperliquidTransaction:UsdSend" isMainnet

/-- Model of `signWithdrawFromBridgeAction` (`signing.ts` line 142). -/
def signWithdrawFromBridgeAction (wallet : JsWallet UserAction)
    (sigFrom : String → Signature) (action : UserAction) (isMainnet : Bool) :
    Except String Signature × UserAction :=
  signUserSignedAction wallet sigFrom action usdSendPayloadTypes
    "HyperliquidTransaction:Withdraw" isMainnet

/-- Model of `signAgent` (`signing.ts` line 161). -/
def signAgent (wallet : JsWallet UserAction) (sigFrom : String → Signature)
    (action : UserAction) (isMainnet : Bool) :
    Except String Signature × UserAction :=
  signUserSignedAction wallet sigFrom action approveAgentPayloadTypes
    "HyperliquidTransaction:ApproveAgent" isMainnet

/-- Result record of `createAgentTypedData` (`signing.ts` line 184): the
typed data plus the original action object for convenience (the source
stores the same mutated object under both `message` and `action`). -/
structure AgentTypedData where
  domain : EIP712Domain
  types : List (String × List FieldDef)
  primaryType : String
  message : UserAction
  action : UserAction
  deriving DecidableEq

/-- Model of `createAgentTypedData`.  As with signUserSignedAction, the
second component is the caller-visible state of the action object after
the call (the source mutates it in place). -/
def createAgentTypedData (action : UserAction) (isMainnet : Bool) :
    AgentTypedData × UserAction :=
  let stamped := stampChain action isMainnet
  ({ domain := userSignedDomain stamped,
     types := [("HyperliquidTransaction:ApproveAgent", approveAgentPayloadTypes)],
     primaryType := "HyperliquidTransaction:ApproveAgent",
     message := stamped, action := stamped }, stamped)

/-! ## Batch order resolution (`rest/exchange.ts`) -/

/-- Model of `ExchangeAPI.getAssetIndex` (`exchange.ts` line 44): consult the
external symbol-to-index resolver (a parameter) and throw on an unknown
asset. -/
def getAssetIndex (resolver : String → Option ℤ) (symbol : String) :
    Except String ℤ :=
  match resolver symbol with
  | none => .error ("Unknown asset: " ++ symbol)
  | some index => .ok index

/-- Constant external resolver used in concrete instances. -/
def constResolver : String → Option ℤ := fun _ => some 5

/-- Model of the per-order callback loop of `placeOrdersTpSl` (`exchange.ts`
lines 151 to 161).  Each callback runs `await this.getAssetIndex(o.coin)`
unconditionally: the `assetIndexCache` map the method declares is never
consulted (no call to its `get` ever occurs in this method), and the
subsequent `=== undefined` test is dead because `getAssetIndex` throws
rather than returning `undefined`, so its `set` is never reached either.
The first component records every invocation of the external resolver, in
callback order; all callbacks are started by `Promise.all` before any can
settle, so every invocation is recorded regardless of later failures. -/
def placeOrdersTpSlLookups (resolver : String → Option ℤ) :
    List Order → List String × Except String (List OrderWire)
  | [] => ([], .ok [])
  | o :: rest =>
      let tailResult := placeOrdersTpSlLookups resolver rest
      (o.coin :: tailResult.1,
        match getAssetIndex resolver o.coin with
        | .error e => .error e
        | .ok index =>
          match orderToWire o index with
          | .error e => .error e
          | .ok w =>
            match tailResult.2 with
            | .error e => .error e
            | .ok ws => .ok (w :: ws))

/-! ## Concrete instances used in scenarios, witnesses and counterexamples -/

/-- The limit order type of the section 8 scenario. -/
def gtcLimit : LimitOrderInfo := { tif := "Gtc" }

/-- The order of the section 8 scenario: ETH, buy, size 1, limit price
2500.12345678, Gtc limit, not reduce-only, no cloid. -/
def ethOrder : Order :=
  { coin := "ETH", is_buy := true, sz := 1, limit_px := 250012345678 / 10 ^ 8,
    order_type := { limit := some gtcLimit, trigger := none },
    reduce_only := false, cloid := none }

/-- An order type with both variants set, exercising the dispatch order. -/
def bothVariantsOrderType : OrderType :=
  { limit := some gtcLimit,
    trigger := some { isMarket := false, triggerPx := 1, tpsl := "tp" } }

/-- A 20-byte vault address. -/
def vaultAddr20 : List Nat := List.replicate 20 7

/-- Constant stand-ins for the external keccak and msgpack collaborators. -/
def constDigest : List Nat → String := fun _ => "digest"

/-- Trivial msgpack encoder for a unit action. -/
def unitEncode : Unit → List Nat := fun _ => [129]

/-- Sample signature parser (stand-in for the ethers parser). -/
def sampleSigFrom : String → Signature := fun sig => { r := sig, s := "0xs", v := 27 }

/-- Client-style wallet (arity-1 signTypedData) over phantom-agent messages. -/
def clientWallet : JsWallet PhantomAgent :=
  { signTypedDataArity := some 1, signAsClient := fun _ _ _ _ => "0xclient",
    signAsDirect := fun _ _ _ => "0xdirect" }

/-- Direct-style wallet (arity-3 signTypedData). -/
def directWallet : JsWallet PhantomAgent :=
  { signTypedDataArity := some 3, signAsClient := fun _ _ _ _ => "0xclient",
    signAsDirect := fun _ _ _ => "0xdirect" }

/-- Wallet whose signTypedData member has an unsupported arity. -/
def arity2Wallet : JsWallet PhantomAgent :=
  { signTypedDataArity := some 2, signAsClient := fun _ _ _ _ => "0xclient",
    signAsDirect := fun _ _ _ => "0xdirect" }

/-- Client-style wallet over user-signed messages. -/
def clientWalletU : JsWallet UserAction :=
  { signTypedDataArity := some 1, signAsClient := fun _ _ _ _ => "0xclient",
    signAsDirect := fun _ _ _ => "0xdirect" }

/-- Typed data used to exercise the signer adapter. -/
def sampleTypedData : TypedData PhantomAgent :=
  { domain := phantomDomain, types := agentTypes, primaryType := "Agent",
    message := { source := "a", connectionId := "0xdeadbeef" } }

/-- An agent-approval action object before any hyperliquidChain stamp. -/
def rawAgentAction : UserAction :=
  { signatureChainId := "0xa4b1", hyperliquidChain := none,
    fields := [("agentAddress", "0xabc"), ("agentName", "bot")] }

theorem foldl_digits_eq (l : List Nat) : ∀ a : Nat,
    l.foldl (fun a d => 10 * a + d) a = a * 10 ^ l.length + digitsToNat l := by
  induction l with
  | nil => intro a; simp [digitsToNat]
  | cons d l ih =>
      intro a
      have h1 := ih (10 * a + d)
      have h2 := ih d
      simp only [List.foldl_cons, List.length_cons]
      rw [h1]
      have : digitsToNat (d :: l) = d * 10 ^ l.length + digitsToNat l := by
        simpa [digitsToNat] using h2
      rw [this]; ring

theorem digitsToNat_append_single (xs : List Nat) (d : Nat) :
    digitsToNat (xs ++ [d]) = 10 * digitsToNat xs + d := by
  simp [digitsToNat, List.foldl_append]

theorem digitsToNat_reverse (l : List Nat) :
    digitsToNat l.reverse = fromDigitsRev l := by
  induction l with
  | nil => rfl
  | cons d l ih =>
      simp [List.reverse_cons, digitsToNat_append_single, ih, fromDigitsRev]
      ring

theorem fromDigitsRev_natDigitsRevFuel :
    ∀ fuel n, n < 10 ^ fuel → fromDigitsRev (natDigitsRevFuel fuel n) = n := by
  intro fuel
  induction fuel with
  | zero => intro n hn; simp at hn; simp [hn, natDigitsRevFuel, fromDigitsRev]
  | succ fuel ih =>
      intro n hn
      by_cases h : n < 10
      · simp [natDigitsRevFuel, h, fromDigitsRev]
      · have hdiv : n / 10 < 10 ^ fuel := by
          rw [Nat.div_lt_iff_lt_mul (by norm_num)]
          calc n < 10 ^ (fuel + 1) := hn
          _ = 10 ^ fuel * 10 := by ring
        simp [natDigitsRevFuel, h, fromDigitsRev, ih _ hdiv]
        omega

theorem digitsToNat_natDigits (n : Nat) : digitsToNat (natDigits n) = n := by
  have hlt : n < 10 ^ (n + 1) := by
    calc n < 10 ^ n := Nat.lt_pow_self (by norm_num) n
    _ ≤ 10 ^ (n + 1) := Nat.pow_le_pow_right (by norm_num) (Nat.le_succ n)
  rw [natDigits, digitsToNat_reverse, fromDigitsRev_natDigitsRevFuel _ _ hlt]

theorem natDigitsRevFuel_lt_ten :
    ∀ fuel n d, d ∈ natDigitsRevFuel fuel n → d < 10 := by
  intro fuel
  induction fuel with
  | zero => intro n d hd; simp [natDigitsRevFuel] at hd
  | succ fuel ih =>
      intro n d hd
      by_cases h : n < 10
      · simp [natDigitsRevFuel, h] at hd; omega
      · simp [natDigitsRevFuel, h] at hd
        rcases hd with hd | hd
        · omega
        · exact ih _ _ hd

theorem natDigits_lt_ten (n : Nat) : ∀ d ∈ natDigits n, d < 10 := by
  intro d hd
  rw [natDigits, List.mem_reverse] at hd
  exact natDigitsRevFuel_lt_ten _ _ _ hd

theorem natDigitsRevFuel_ne_nil (fuel n : Nat) :
    natDigitsRevFuel (fuel + 1) n ≠ [] := by
  by_cases h : n < 10 <;> simp [natDigitsRevFuel, h]

theorem natDigits_ne_nil (n : Nat) : natDigits n ≠ [] := by
  rw [natDigits]
  simpa using natDigitsRevFuel_ne_nil n n

theorem digitChar_roundtrip {d : Nat} (hd : d < 10) :
    charToDigit (digitChar d) = d ∧ (digitChar d).isDigit = true ∧ digitChar d ≠ '.' := by
  interval_cases d <;> exact ⟨rfl, rfl, by decide⟩

theorem digitsOfChars_natChars (n : Nat) : digitsOfChars (natChars n) = n := by
  have hmap : (natChars n).map charToDigit = natDigits n := by
    rw [natChars, List.map_map]
    have : ∀ d ∈ natDigits n, (charToDigit ∘ digitChar) d = id d := by
      intro d hd
      exact (digitChar_roundtrip (natDigits_lt_ten n d hd)).1
    rw [List.map_congr_left this, List.map_id]
  rw [digitsOfChars, hmap, digitsToNat_natDigits]

theorem digitsToNat_append (a b : List Nat) :
    digitsToNat (a ++ b) = digitsToNat a * 10 ^ b.length + digitsToNat b := by
  show (a ++ b).foldl (fun a d => 10 * a + d) 0 = _
  rw [List.foldl_append, foldl_digits_eq]
  rfl

theorem digitsToNat_replicate_zero (k : Nat) :
    digitsToNat (List.replicate k 0) = 0 := by
  induction k with
  | zero => rfl
  | succ k ih =>
      show (List.replicate (k+1) 0).foldl (fun a d => 10 * a + d) 0 = 0
      rw [List.replicate_succ]
      simpa [digitsToNat] using ih

/-! ## Round trip of parseFloat over toFixed -/

theorem takeWhile_append_all {p : Char → Bool} :
    ∀ (A : List Char), (∀ a ∈ A, p a = true) → ∀ (c : Char), p c = false → ∀ B : List Char,
      (A ++ c :: B).takeWhile p = A ∧ (A ++ c :: B).dropWhile p = c :: B := by
  intro A
  induction A with
  | nil =>
      intro _ c hc B
      simp [List.takeWhile_cons, List.dropWhile_cons, hc]
  | cons a A ih =>
      intro hA c hc B
      have ha : p a = true := hA a (List.mem_cons_self a A)
      have hrest := ih (fun x hx => hA x (List.mem_cons_of_mem a hx)) c hc B
      simp only [List.cons_append, List.takeWhile_cons, List.dropWhile_cons, ha,
        if_pos, ite_true]
      exact ⟨by rw [hrest.1], hrest.2⟩

theorem takeWhile_all {p : Char → Bool} :
    ∀ B : List Char, (∀ b ∈ B, p b = true) → B.takeWhile p = B := by
  intro B
  induction B with
  | nil => intro _; rfl
  | cons b B ih =>
      intro hB
      have hb : p b = true := hB b (List.mem_cons_self b B)
      simp only [List.takeWhile_cons, hb, ite_true]
      rw [ih (fun x hx => hB x (List.mem_cons_of_mem b hx))]

/-- Value of a fixed-notation digit string: splitting an all-digit character
list `f` places before its end and inserting a dot parses back to the value
of the whole digit list divided by `10 ^ f`. -/
theorem parseUnsignedQ_fixed (m : List Char) (f : Nat) (hlen : f < m.length)
    (hdig : ∀ c ∈ m, c.isDigit = true) :
    parseUnsignedQ (m.take (m.length - f) ++ '.' :: m.drop (m.length - f)) =
      (digitsOfChars m : ℚ) / 10 ^ f := by
  have hA : ∀ a ∈ m.take (m.length - f), Char.isDigit a = true :=
    fun a ha => hdig a (List.mem_of_mem_take ha)
  have hB : ∀ b ∈ m.drop (m.length - f), Char.isDigit b = true :=
    fun b hb => hdig b (List.mem_of_mem_drop hb)
  have hdot : Char.isDigit '.' = false := by decide
  have hsplit := takeWhile_append_all (m.take (m.length - f)) hA '.' hdot
    (m.drop (m.length - f))
  rw [parseUnsignedQ]
  simp only [hsplit.1, hsplit.2, List.head?_cons, List.tail_cons, if_pos rfl]
  rw [takeWhile_all _ hB]
  have hBlen : (m.drop (m.length - f)).length = f := by
    rw [List.length_drop]; omega
  have hm : digitsOfChars m =
      digitsOfChars (m.take (m.length - f)) * 10 ^ f +
        digitsOfChars (m.drop (m.length - f)) := by
    conv_lhs => rw [← List.take_append_drop (m.length - f) m]
    rw [digitsOfChars, List.map_append, digitsToNat_append, List.length_map, hBlen]
    rfl
  rw [hBlen, hm]
  have h10 : ((10:ℚ) ^ f) ≠ 0 := pow_ne_zero f (by norm_num)
  push_cast
  field_simp

/-- Structure of the characters produced by toFixedPosChars: a non-empty
all-digit list with the dot inserted `f` places before its end. -/
theorem toFixedPosChars_spec (f : Nat) (y : ℚ) :
    ∃ m : List Char,
      toFixedPosChars f y = m.take (m.length - f) ++ '.' :: m.drop (m.length - f) ∧
      f < m.length ∧
      (∀ c ∈ m, c.isDigit = true ∧ c ≠ '-') ∧
      digitsOfChars m = toFixedDigits f y := by
  refine ⟨if (natChars (toFixedDigits f y)).length ≤ f then
    List.replicate (f + 1 - (natChars (toFixedDigits f y)).length) '0' ++
      natChars (toFixedDigits f y) else natChars (toFixedDigits f y),
    by simp only [toFixedPosChars], ?_, ?_, ?_⟩
  · by_cases h : (natChars (toFixedDigits f y)).length ≤ f
    · simp only [h, if_pos, ite_true, List.length_append, List.length_replicate]
      omega
    · simp only [h, ite_false]
      omega
  · intro c hc
    have hc2 : c ∈ List.replicate (f + 1 - (natChars (toFixedDigits f y)).length) '0' ∨
        c ∈ natChars (toFixedDigits f y) := by
      by_cases h : (natChars (toFixedDigits f y)).length ≤ f
      · simp only [h, ite_true, List.mem_append] at hc
        exact hc
      · simp only [h, ite_false] at hc
        exact Or.inr hc
    rcases hc2 with hc2 | hc2
    · rw [List.eq_of_mem_replicate hc2]
      exact ⟨by decide, by decide⟩
    · rw [natChars] at hc2
      rcases List.mem_map.mp hc2 with ⟨d, hd, rfl⟩
      have hd10 : d < 10 := natDigits_lt_ten _ d hd
      refine ⟨(digitChar_roundtrip hd10).2.1, ?_⟩
      interval_cases d <;> decide
  · by_cases h : (natChars (toFixedDigits f y)).length ≤ f
    · simp only [h, ite_true]
      rw [digitsOfChars, List.map_append, List.map_replicate]
      have hz : charToDigit '0' = 0 := rfl
      rw [hz]
      have := digitsToNat_replicate_zero (f + 1 - (natChars (toFixedDigits f y)).length)
      calc digitsToNat (List.replicate (f + 1 - (natChars (toFixedDigits f y)).length) 0 ++
              (natChars (toFixedDigits f y)).map charToDigit)
          = digitsToNat (List.replicate (f + 1 - (natChars (toFixedDigits f y)).length) 0) *
              10 ^ ((natChars (toFixedDigits f y)).map charToDigit).length +
              digitsToNat ((natChars (toFixedDigits f y)).map charToDigit) :=
            digitsToNat_append _ _
        _ = digitsOfChars (natChars (toFixedDigits f y)) := by
            rw [this]; simp [digitsOfChars]
        _ = toFixedDigits f y := digitsOfChars_natChars _
    · simp only [h, ite_false]
      exact digitsOfChars_natChars _

theorem parseUnsignedQ_toFixedPos (f : Nat) (y : ℚ) :
    parseUnsignedQ (toFixedPosChars f y) = (toFixedDigits f y : ℚ) / 10 ^ f := by
  obtain ⟨m, hm, hlen, hdig, hval⟩ := toFixedPosChars_spec f y
  rw [hm, parseUnsignedQ_fixed m f hlen (fun c hc => (hdig c hc).1), hval]

theorem toFixedPosChars_head_ne (f : Nat) (y : ℚ) :
    (toFixedPosChars f y).head? ≠ some '-' := by
  obtain ⟨m, hm, hlen, hdig, -⟩ := toFixedPosChars_spec f y
  rw [hm]
  have htk : 1 ≤ m.length - f := by omega
  cases hA : m.take (m.length - f) with
  | nil =>
      have : (m.take (m.length - f)).length = 0 := by rw [hA]; rfl
      rw [List.length_take] at this
      omega
  | cons a A =>
      have ha : a ∈ m := List.mem_of_mem_take (hA ▸ List.mem_cons_self a A)
      have : a ≠ '-' := (hdig a ha).2
      simp [this]

theorem parseFloatQ_neg_cons (cs : List Char) :
    parseFloatQ ⟨'-' :: cs⟩ = - parseUnsignedQ cs := rfl

theorem parseFloatQ_of_head_ne (cs : List Char) (h : cs.head? ≠ some '-') :
    parseFloatQ ⟨cs⟩ = parseUnsignedQ cs := by
  rw [parseFloatQ, if_neg h]

theorem parseFloatQ_toFixed (f : Nat) (x : ℚ) :
    parseFloatQ (toFixed f x) = toFixedVal f x := by
  rw [toFixed, toFixedVal]
  by_cases hx : x < 0
  · simp only [hx, ite_true]
    rw [parseFloatQ_neg_cons, parseUnsignedQ_toFixedPos]
  · simp only [hx, ite_false]
    rw [parseFloatQ_of_head_ne _ (toFixedPosChars_head_ne f x)]
    exact parseUnsignedQ_toFixedPos f x

theorem beBytes_length (k n : Nat) : (beBytes k n).length = k := by
  induction k generalizing n with
  | zero => rfl
  | succ k ih => simp [beBytes, ih]

theorem fromBEBytes_append_single (xs : List Nat) (b : Nat) :
    fromBEBytes (xs ++ [b]) = 256 * fromBEBytes xs + b := by
  simp [fromBEBytes, List.foldl_append]

theorem fromBEBytes_beBytes (k n : Nat) :
    fromBEBytes (beBytes k n) = n % 256 ^ k := by
  induction k generalizing n with
  | zero => simp [beBytes, fromBEBytes, Nat.mod_one]
  | succ k ih =>
      rw [beBytes, fromBEBytes_append_single, ih]
      have h1 : (256:Nat) ^ (k + 1) = 256 * 256 ^ k := by ring
      rw [h1, Nat.mod_mul]
      omega

theorem listSet_at_append (pre mid src : List Nat) :
    listSet (pre ++ mid) pre.length src = pre ++ (src ++ mid.drop src.length) := by
  rw [listSet, List.take_left, List.drop_append, List.append_assoc]

theorem listSet_zero (data src : List Nat) :
    listSet data 0 src = src ++ data.drop src.length := by
  simp [listSet]

theorem actionHashData_eq (msgPackBytes : List Nat) (vaultAddress : Option (List Nat))
    (nonce : ℤ) (hva : ∀ a ∈ vaultAddress, a.length = 20) :
    actionHashData msgPackBytes vaultAddress nonce =
      msgPackBytes ++ beBytes 8 (nonce.emod (2 ^ 64)).toNat ++
        vaultTailBytes vaultAddress := by
  obtain ⟨be8, hg⟩ : ∃ b, beBytes 8 (nonce.emod (2 ^ 64)).toNat = b := ⟨_, rfl⟩
  have hbe : be8.length = 8 := hg ▸ beBytes_length _ _
  have hmsg : ∀ extra : Nat, listSet (List.replicate (msgPackBytes.length + extra) 0)
      0 msgPackBytes = msgPackBytes ++ List.replicate extra 0 := by
    intro extra
    rw [listSet_zero, List.drop_replicate, Nat.add_sub_cancel_left]
  have hnonce : ∀ extra : Nat, listSet (msgPackBytes ++ List.replicate extra 0)
      msgPackBytes.length be8 = msgPackBytes ++ (be8 ++ List.replicate (extra - 8) 0) := by
    intro extra
    rw [listSet_at_append, List.drop_replicate, hbe]
  cases vaultAddress with
  | none =>
      simp only [actionHashData, vaultTailBytes, hg]
      rw [hmsg 9, hnonce 9]
      have hflag : listSet (msgPackBytes ++ (be8 ++ List.replicate 1 0))
          (msgPackBytes.length + 8) [0] = msgPackBytes ++ (be8 ++ [0]) := by
        have hb : msgPackBytes ++ (be8 ++ List.replicate 1 0) =
            (msgPackBytes ++ be8) ++ List.replicate 1 0 := by
          rw [List.append_assoc]
        have ho : msgPackBytes.length + 8 = (msgPackBytes ++ be8).length := by
          simp [hbe]
        rw [hb, ho, listSet_at_append, List.append_assoc]
        rfl
      rw [show (9:Nat) - 8 = 1 from rfl] at *
      rw [hflag, List.append_assoc]
  | some addr =>
      have haddr : addr.length = 20 := hva addr rfl
      simp only [actionHashData, vaultTailBytes, hg]
      rw [hmsg 29, hnonce 29]
      rw [show (29:Nat) - 8 = 21 from rfl]
      have hflag : listSet (msgPackBytes ++ (be8 ++ List.replicate 21 0))
          (msgPackBytes.length + 8) [1] =
          msgPackBytes ++ (be8 ++ ([1] ++ List.replicate 20 0)) := by
        have hb : msgPackBytes ++ (be8 ++ List.replicate 21 0) =
            (msgPackBytes ++ be8) ++ List.replicate 21 0 := by
          rw [List.append_assoc]
        have ho : msgPackBytes.length + 8 = (msgPackBytes ++ be8).length := by
          simp [hbe]
        rw [hb, ho, listSet_at_append, List.append_assoc]
        rfl
      rw [hflag]
      have hvault : listSet (msgPackBytes ++ (be8 ++ ([1] ++ List.replicate 20 0)))
          (msgPackBytes.length + 9) addr = msgPackBytes ++ (be8 ++ (1 :: addr)) := by
        have hb : msgPackBytes ++ (be8 ++ ([1] ++ List.replicate 20 0)) =
            ((msgPackBytes ++ be8) ++ [1]) ++ List.replicate 20 0 := by
          simp [List.append_assoc]
        have ho : msgPackBytes.length + 9 = ((msgPackBytes ++ be8) ++ [1]).length := by
          simp [hbe]
        rw [hb, ho, listSet_at_append, List.drop_replicate, haddr]
        simp
      rw [hvault, List.append_assoc]

theorem actionHashData_length (msgPackBytes : List Nat) (vaultAddress : Option (List Nat))
    (nonce : ℤ) (hva : ∀ a ∈ vaultAddress, a.length = 20) :
    (actionHashData msgPackBytes vaultAddress nonce).length =
      msgPackBytes.length + vaultExtra vaultAddress := by
  rw [actionHashData_eq msgPackBytes vaultAddress nonce hva]
  cases vaultAddress with
  | none => simp [beBytes_length, vaultTailBytes, vaultExtra]
  | some addr =>
      have haddr : addr.length = 20 := hva addr rfl
      simp [beBytes_length, haddr, vaultTailBytes, vaultExtra]

/-! ## Rounding lemmas -/

theorem mathRound_sub_le (y : ℚ) : |(mathRound y : ℚ) - y| ≤ 1 / 2 := by
  rw [mathRound]
  have h1 : ((Int.floor (y + 1 / 2) : ℤ) : ℚ) ≤ y + 1 / 2 := Int.floor_le _
  have h2 : y + 1 / 2 < (Int.floor (y + 1 / 2) : ℤ) + 1 := Int.lt_floor_add_one _
  rw [abs_le]
  constructor <;> push_cast at * <;> linarith

theorem mathRound_nearest (y : ℚ) (m : ℤ) :
    |(mathRound y : ℚ) - y| ≤ |(m : ℚ) - y| := by
  by_contra hcon
  push_neg at hcon
  have hr := mathRound_sub_le y
  have hm : |(m : ℚ) - y| < 1 / 2 := lt_of_lt_of_le hcon hr
  have hdiff : |(mathRound y : ℚ) - (m : ℚ)| < 1 := by
    calc |(mathRound y : ℚ) - (m : ℚ)|
        ≤ |(mathRound y : ℚ) - y| + |y - (m : ℚ)| := abs_sub_le _ _ _
      _ = |(mathRound y : ℚ) - y| + |(m : ℚ) - y| := by rw [abs_sub_comm y]
      _ < 1 := by linarith
  have hcast : |((mathRound y - m : ℤ) : ℚ)| < 1 := by push_cast; exact hdiff
  have hint : |mathRound y - m| < 1 := by exact_mod_cast hcast
  have heq : mathRound y = m := by
    rcases abs_lt.mp hint with ⟨hl, hr2⟩
    omega
  rw [heq] at hcon
  exact lt_irrefl _ hcon

theorem orderToWire_eq (order : Order) (asset : ℤ) :
    orderToWire order asset =
      match floatToWire order.limit_px with
      | .error e => .error e
      | .ok p =>
        match floatToWire order.sz with
        | .error e => .error e
        | .ok s =>
          match orderTypeToWire order.order_type with
          | .error e => .error e
          | .ok t =>
              .ok { a := asset, b := order.is_buy, p := p, s := s,
                    r := order.reduce_only, t := t, c := order.cloid } := rfl

/-! ## Claim theorems -/

/-- C1: actionHash hashes exactly the buffer msgpack-bytes, then the 8-byte
big-endian nonce, then one flag byte, then (when present) the 20 raw vault
address bytes; the buffer length is the serialized length plus 9 or plus
29.  Stated for every action, every vault address of 20 bytes and every
nonce representable in 8 bytes (the exact big-endian encoding exists for
nonces in `[0, 2^64)`; silent wrapping outside that range is the subject of
C10). -/
theorem actionHash_buffer_spec {α : Type} (keccak256 : List Nat → String)
    (encode : α → List Nat) (action : α) (vaultAddress : Option (List Nat))
    (nonce : ℤ) (hva : ∀ a ∈ vaultAddress, a.length = 20)
    (h0 : 0 ≤ nonce) (h64 : nonce < 2 ^ 64) :
    actionHash keccak256 encode action vaultAddress (.int nonce) =
      .ok (keccak256 (encode action ++ beBytes 8 nonce.toNat ++
        vaultTailBytes vaultAddress)) ∧
    fromBEBytes (beBytes 8 nonce.toNat) = nonce.toNat ∧
    (actionHashData (encode action) vaultAddress nonce).length =
      (encode action).length + vaultExtra vaultAddress := by
  have hemod : nonce.emod (2 ^ 64) = nonce := Int.emod_eq_of_lt h0 h64
  refine ⟨?_, ?_, actionHashData_length _ _ _ hva⟩
  · have hstep : actionHash keccak256 encode action vaultAddress (.int nonce) =
        Except.ok (keccak256 (actionHashData (encode action) vaultAddress nonce)) := rfl
    rw [hstep, actionHashData_eq _ _ _ hva, hemod]
  · rw [fromBEBytes_beBytes]
    apply Nat.mod_eq_of_lt
    have : (256 : Nat) ^ 8 = 2 ^ 64 := by norm_num
    rw [this]
    omega

/-- C1 witness: the theorem applied to a unit action, a 20-byte vault
address and nonce 5. -/
theorem actionHash_buffer_spec_witness :
    (∀ a ∈ some vaultAddr20, List.length a = 20) ∧ (0:ℤ) ≤ 5 ∧ (5:ℤ) < 2 ^ 64 ∧
    actionHash constDigest unitEncode () (some vaultAddr20) (.int 5) =
      .ok (constDigest (unitEncode () ++ beBytes 8 (5:ℤ).toNat ++ (1 :: vaultAddr20))) := by
  refine ⟨?_, by norm_num, by norm_num, ?_⟩
  · intro a ha
    simp only [Option.mem_def, Option.some_inj] at ha
    rw [← ha]
    with_unfolding_all rfl
  · exact (actionHash_buffer_spec constDigest unitEncode () (some vaultAddr20) 5
      (by intro a ha
          simp only [Option.mem_def, Option.some_inj] at ha
          rw [← ha]
          with_unfolding_all rfl)
      (by norm_num) (by norm_num)).1

/-- C10: actionHash is total exactly on integer nonces: a non-integral
nonce throws at the BigInt conversion; every integer nonce succeeds, the
8 stored nonce bytes being the big-endian encoding of the nonce modulo
`2 ^ 64` (silent wrap for negative or oversized nonces); and under the
precondition `0 ≤ nonce < 2 ^ 64` the stored bytes are the exact
big-endian encoding of the nonce. -/
theorem actionHash_nonce_wrap {α : Type} (keccak256 : List Nat → String)
    (encode : α → List Nat) (action : α) (vaultAddress : Option (List Nat))
    (hva : ∀ a ∈ vaultAddress, a.length = 20) :
    actionHash keccak256 encode action vaultAddress .nonInt =
      .error "Cannot convert a non-integer number to a BigInt" ∧
    (∀ n : ℤ, actionHash keccak256 encode action vaultAddress (.int n) =
      .ok (keccak256 (actionHashData (encode action) vaultAddress n))) ∧
    (∀ n : ℤ,
      ((actionHashData (encode action) vaultAddress n).drop
        (encode action).length).take 8 = beBytes 8 (n.emod (2 ^ 64)).toNat ∧
      fromBEBytes (((actionHashData (encode action) vaultAddress n).drop
        (encode action).length).take 8) = (n.emod (2 ^ 64)).toNat) ∧
    (∀ n : ℤ, 0 ≤ n → n < 2 ^ 64 →
      ((actionHashData (encode action) vaultAddress n).drop
        (encode action).length).take 8 = beBytes 8 n.toNat ∧
      ((n.toNat : ℤ) = n)) := by
  have hslice : ∀ n : ℤ,
      ((actionHashData (encode action) vaultAddress n).drop
        (encode action).length).take 8 = beBytes 8 (n.emod (2 ^ 64)).toNat := by
    intro n
    rw [actionHashData_eq _ _ _ hva, List.append_assoc, List.drop_left]
    exact List.take_left' (beBytes_length _ _)
  refine ⟨rfl, fun n => rfl, fun n => ⟨hslice n, ?_⟩, fun n h0 h64 => ⟨?_, ?_⟩⟩
  · rw [hslice n, fromBEBytes_beBytes]
    apply Nat.mod_eq_of_lt
    have h2 : (256 : Nat) ^ 8 = 2 ^ 64 := by norm_num
    rw [h2]
    have hlt : n.emod (2 ^ 64) < 2 ^ 64 := Int.emod_lt_of_pos n (by norm_num)
    have hge : 0 ≤ n.emod (2 ^ 64) := Int.emod_nonneg n (by norm_num)
    omega
  · rw [hslice n, show n.emod (2 ^ 64) = n from Int.emod_eq_of_lt h0 h64]
  · omega

/-- C10 witness: the theorem applied with no vault address; nonce -1 wraps
to all-ones bytes, nonce 5 is stored exactly. -/
theorem actionHash_nonce_wrap_witness :
    actionHash constDigest unitEncode () none .nonInt =
      .error "Cannot convert a non-integer number to a BigInt" ∧
    ((actionHashData (unitEncode ()) none (-1)).drop
      (unitEncode ()).length).take 8 = beBytes 8 ((-1 : ℤ).emod (2 ^ 64)).toNat ∧
    ((actionHashData (unitEncode ()) none 5).drop
      (unitEncode ()).length).take 8 = beBytes 8 (5 : ℤ).toNat := by
  have h := actionHash_nonce_wrap constDigest unitEncode () none (by simp)
  exact ⟨h.1, (h.2.2.1 (-1)).1, (h.2.2.2 5 (by norm_num) (by norm_num)).1⟩

/-- C2: signL1Action signs, and createL1ActionTypedData returns, typed data
with the fixed phantom-agent domain (chainId 1337, name Exchange, version 1,
zero verifying contract), the single ordered Agent schema, primary type
Agent, and the message pairing the mainnet marker with the action digest. -/
theorem signL1Action_typedData {α : Type} (keccak256 : List Nat → String)
    (encode : α → List Nat) (wallet : JsWallet PhantomAgent)
    (sigFrom : String → Signature) (action : α) (activePool : Option (List Nat))
    (nonce : ℤ) (isMainnet : Bool) :
    signL1Action keccak256 encode wallet sigFrom action activePool (.int nonce)
        isMainnet =
      signInner wallet sigFrom
        { domain := { name := "Exchange",
                      version := "1",
                      chainId := 1337,
                      verifyingContract :=
                        "0x0000000000000000000000000000000000000000" },
          types := [("Agent", [{ name := "source", type := "string" },
                               { name := "connectionId", type := "bytes32" }])],
          primaryType := "Agent",
          message := { source := if isMainnet then "a" else "b",
                       connectionId :=
                         keccak256
                           (actionHashData (encode action) activePool nonce) } } ∧
    createL1ActionTypedData keccak256 encode action activePool (.int nonce)
        isMainnet =
      .ok { domain := { name := "Exchange",
                        version := "1",
                        chainId := 1337,
                        verifyingContract :=
                          "0x0000000000000000000000000000000000000000" },
            types := [("Agent", [{ name := "source", type := "string" },
                                 { name := "connectionId", type := "bytes32" }])],
            primaryType := "Agent",
            message := { source := if isMainnet then "a" else "b",
                         connectionId :=
                           keccak256
                             (actionHashData (encode action) activePool nonce) },
            action := action, nonce := .int nonce, vaultAddress := activePool,
            hash := keccak256 (actionHashData (encode action) activePool nonce) } :=
  ⟨rfl, rfl⟩

/-- C3: floatToWire fails with the rounding-loss error exactly when the
8-digit formatting of the input parses back at least `1e-12` away from it;
on success it returns the formatted string with trailing zeros and a
trailing dot stripped and a lone minus-zero normalized; and the four
spec scenarios hold (`-0` is `0 : ℚ` in this model). -/
theorem floatToWire_spec :
    (∀ x : ℚ,
      (floatToWire x = .error "floatToWire causes rounding" ↔
        1 / 10 ^ 12 ≤ |toFixedVal 8 x - x|) ∧
      (∀ s : String, floatToWire x = .ok s →
        |toFixedVal 8 x - x| < 1 / 10 ^ 12 ∧
        s = (if stripWireZeros (toFixed 8 x) = "-0" then "0"
             else stripWireZeros (toFixed 8 x)))) ∧
    floatToWire 0 = .ok "0" ∧
    floatToWire (3 / 2) = .ok "1.5" ∧
    floatToWire 2 = .ok "2" ∧
    floatToWire (2500123456785 / 10 ^ 9) = .error "floatToWire causes rounding" := by
  refine ⟨?_, ?_, ?_, ?_, ?_⟩
  · intro x
    have hparse : parseFloatQ (toFixed 8 x) = toFixedVal 8 x := parseFloatQ_toFixed 8 x
    by_cases hc : 1 / 10 ^ 12 ≤ |parseFloatQ (toFixed 8 x) - x|
    · have hfw : floatToWire x = .error "floatToWire causes rounding" := by
        simp only [floatToWire, if_pos hc]
      refine ⟨⟨fun _ => hparse ▸ hc, fun _ => hfw⟩, ?_⟩
      intro s hs
      rw [hfw] at hs
      exact absurd hs (by simp)
    · have hfw : floatToWire x = .ok (if stripWireZeros (toFixed 8 x) = "-0" then "0"
          else stripWireZeros (toFixed 8 x)) := by
        simp only [floatToWire, if_neg hc]
      have hlt : |toFixedVal 8 x - x| < 1 / 10 ^ 12 := by
        rw [← hparse]
        exact lt_of_not_le hc
      refine ⟨⟨fun h => ?_, fun h => ?_⟩, ?_⟩
      · rw [hfw] at h
        exact absurd h (by simp)
      · rw [hparse] at hc
        exact absurd h (not_le_of_lt hlt)
      · intro s hs
        rw [hfw] at hs
        refine ⟨hlt, ?_⟩
        exact (Except.ok.injEq _ _).mp hs |>.symm
  · with_unfolding_all rfl
  · with_unfolding_all rfl
  · with_unfolding_all rfl
  · with_unfolding_all rfl

/-- C3 witness: the characterization applied at `x = 3/2`. -/
theorem floatToWire_spec_witness :
    floatToWire (3 / 2) = .ok "1.5" ∧
    |toFixedVal 8 (3 / 2) - 3 / 2| < 1 / 10 ^ 12 := by
  have h := (floatToWire_spec.1 (3 / 2)).2 "1.5" (by with_unfolding_all rfl)
  exact ⟨by with_unfolding_all rfl, h.1⟩

/-- C4: orderToWire produces the fixed-key wire structure with the asset
index, side, encoded price and size, reduce-only flag and encoded order
type, and the `c` key carries exactly the cloid of the order, absent
(`none`) exactly when the cloid is undefined; the section 8 scenario
maps to the stated OrderWire at asset index 5. -/
theorem orderToWire_spec :
    (∀ (order : Order) (asset : ℤ) (w : OrderWire), orderToWire order asset = .ok w →
      w.a = asset ∧ w.b = order.is_buy ∧ w.r = order.reduce_only ∧
      w.c = order.cloid ∧ (w.c.isSome ↔ order.cloid.isSome) ∧
      floatToWire order.limit_px = .ok w.p ∧ floatToWire order.sz = .ok w.s ∧
      orderTypeToWire order.order_type = .ok w.t) ∧
    orderToWire ethOrder 5 =
      .ok { a := 5, b := true, p := "2500.12345678", s := "1", r := false,
            t := { limit := some { tif := "Gtc" }, trigger := none }, c := none } := by
  constructor
  · intro order asset w h
    rw [orderToWire_eq] at h
    split at h
    next e hp => simp at h
    next p hp =>
      split at h
      next e hs => simp at h
      next s hs =>
        split at h
        next e ht => simp at h
        next t ht =>
          simp only [Except.ok.injEq] at h
          subst h
          exact ⟨rfl, rfl, rfl, rfl, Iff.rfl, hp, hs, ht⟩
  · with_unfolding_all rfl

/-- C4 witness: the field characterization applied to the scenario order. -/
theorem orderToWire_spec_witness :
    ({ a := 5, b := true, p := "2500.12345678", s := "1", r := false,
       t := { limit := some { tif := "Gtc" }, trigger := none },
       c := none } : OrderWire).c = ethOrder.cloid := by
  have h := orderToWire_spec.1 ethOrder 5 _ (by with_unfolding_all rfl)
  exact h.2.2.2.1

/-- C5 counterexample: on an order type with both `limit` and `trigger` set,
orderTypeToWire returns the limit variant even though trigger is set, so
the claim that it returns a trigger variant whenever trigger is set fails. -/
theorem orderTypeToWire_both_set :
    bothVariantsOrderType.trigger.isSome = true ∧
    orderTypeToWire bothVariantsOrderType =
      .ok { limit := some { tif := "Gtc" }, trigger := none } ∧
    orderTypeToWire bothVariantsOrderType ≠
      .ok { limit := none,
            trigger := some { isMarket := false, triggerPx := "1", tpsl := "tp" } } := by
  refine ⟨rfl, by with_unfolding_all rfl, ?_⟩
  intro h
  rw [show orderTypeToWire bothVariantsOrderType =
    .ok { limit := some { tif := "Gtc" }, trigger := none } from
    by with_unfolding_all rfl] at h
  simp only [Except.ok.injEq] at h
  exact absurd (congrArg WireOrderType.trigger h) (by simp)

/-- C5 (amended): limit takes precedence — the limit variant is returned
whenever limit is set; when limit is not set and trigger is, the trigger
variant is returned with the same isMarket flag and tpsl tag and triggerPx
re-encoded through floatToWire (whose rounding failure propagates); and the
invalid-order-type error occurs exactly when neither variant is set. -/
theorem orderTypeToWire_spec :
    (∀ (ot : OrderType) (l : LimitOrderInfo), ot.limit = some l →
      orderTypeToWire ot = .ok { limit := some l, trigger := none }) ∧
    (∀ (ot : OrderType) (t : TriggerOrderInfo), ot.limit = none → ot.trigger = some t →
      (∀ px, floatToWire t.triggerPx = .ok px →
        orderTypeToWire ot =
          .ok { limit := none,
                trigger := some { isMarket := t.isMarket, triggerPx := px,
                                  tpsl := t.tpsl } }) ∧
      (∀ e, floatToWire t.triggerPx = .error e → orderTypeToWire ot = .error e)) ∧
    (∀ ot : OrderType, orderTypeToWire ot = .error "Invalid order type" ↔
      ot.limit = none ∧ ot.trigger = none) := by
  refine ⟨?_, ?_, ?_⟩
  · intro ot l hl
    rw [orderTypeToWire, hl]
  · intro ot t hl ht
    constructor
    · intro px hpx
      rw [orderTypeToWire, hl, ht]
      simp only [hpx]
    · intro e he
      rw [orderTypeToWire, hl, ht]
      simp only [he]
  · intro ot
    constructor
    · intro h
      rw [orderTypeToWire] at h
      cases hl : ot.limit with
      | some l => rw [hl] at h; simp at h
      | none =>
          rw [hl] at h
          cases ht : ot.trigger with
          | none => exact ⟨rfl, rfl⟩
          | some t =>
              rw [ht] at h
              cases hpx : floatToWire t.triggerPx with
              | ok px => simp only [hpx] at h; exact absurd h (by simp)
              | error e =>
                  simp only [hpx] at h
                  simp only [Except.error.injEq] at h
                  subst h
                  have hne : floatToWire t.triggerPx ≠
                      .error "Invalid order type" := by
                    rw [floatToWire]
                    by_cases hc : (1:ℚ) / 10 ^ 12 ≤
                        |parseFloatQ (toFixed 8 t.triggerPx) - t.triggerPx|
                    · rw [if_pos hc]; intro hx; simp at hx
                    · rw [if_neg hc]; intro hx; simp at hx
                  exact absurd hpx hne
    · rintro ⟨hl, ht⟩
      rw [orderTypeToWire, hl, ht]

/-- C5 witness: the amended dispatch applied to a limit-only and an empty
order type. -/
theorem orderTypeToWire_spec_witness :
    orderTypeToWire { limit := some { tif := "Gtc" }, trigger := none } =
      .ok { limit := some { tif := "Gtc" }, trigger := none } ∧
    orderTypeToWire { limit := none, trigger := none } =
      .error "Invalid order type" := by
  exact ⟨orderTypeToWire_spec.1 _ { tif := "Gtc" } rfl,
    (orderTypeToWire_spec.2.2 _).2 ⟨rfl, rfl⟩⟩

/-- C7: signInner dispatches on the arity of the signTypedData member:
arity 1 invokes the client-style single-params call, arity 3 the direct
three-argument call, anything else fails with the unsupported-signer error;
both successful branches normalize the raw signature through splitSig, the
same routine exported for caller-supplied signature strings. -/
theorem signInner_dispatch {μ : Type} (wallet : JsWallet μ)
    (sigFrom : String → Signature) (data : TypedData μ) :
    (wallet.signTypedDataArity = some 1 →
      signInner wallet sigFrom data = .ok (splitSig sigFrom
        (wallet.signAsClient data.domain data.types data.primaryType data.message))) ∧
    (wallet.signTypedDataArity = some 3 →
      signInner wallet sigFrom data = .ok (splitSig sigFrom
        (wallet.signAsDirect data.domain data.types data.message))) ∧
    (wallet.signTypedDataArity ≠ some 1 → wallet.signTypedDataArity ≠ some 3 →
      signInner wallet sigFrom data =
        .error "Unsupported wallet for signing typed data") := by
  refine ⟨?_, ?_, ?_⟩
  · intro h1
    have hc : isAbstractWalletClient wallet = true := by
      rw [isAbstractWalletClient, h1]; rfl
    rw [signInner, if_pos hc]
  · intro h3
    have hc1 : isAbstractWalletClient wallet = false := by
      rw [isAbstractWalletClient, h3]; rfl
    have hc3 : isAbstractSigner wallet = true := by
      rw [isAbstractSigner, h3]; rfl
    rw [signInner, if_neg (by simp [hc1]), if_pos hc3]
  · intro h1 h3
    have hc1 : isAbstractWalletClient wallet = false := by
      rw [isAbstractWalletClient]
      exact beq_eq_false_iff_ne.mpr h1
    have hc3 : isAbstractSigner wallet = false := by
      rw [isAbstractSigner]
      exact beq_eq_false_iff_ne.mpr h3
    rw [signInner, if_neg (by simp [hc1]), if_neg (by simp [hc3])]

/-- C7 witness: the dispatch applied to wallets of arity 1, 3 and 2. -/
theorem signInner_dispatch_witness :
    clientWallet.signTypedDataArity = some 1 ∧
    signInner clientWallet sampleSigFrom sampleTypedData =
      .ok (splitSig sampleSigFrom "0xclient") ∧
    signInner directWallet sampleSigFrom sampleTypedData =
      .ok (splitSig sampleSigFrom "0xdirect") ∧
    signInner arity2Wallet sampleSigFrom sampleTypedData =
      .error "Unsupported wallet for signing typed data" := by
  refine ⟨rfl, ?_, ?_, ?_⟩
  · exact (signInner_dispatch clientWallet sampleSigFrom sampleTypedData).1 rfl
  · exact (signInner_dispatch directWallet sampleSigFrom sampleTypedData).2.1 rfl
  · exact (signInner_dispatch arity2Wallet sampleSigFrom sampleTypedData).2.2
      (by decide) (by decide)

/-- C8 counterexample: signUserSignedAction and createAgentTypedData mutate
the caller-supplied action object, so an action without a pre-stamped
hyperliquidChain is changed by the call, contradicting the claim that no
signing operation mutates its inputs. -/
theorem signUserSignedAction_mutates :
    (signUserSignedAction clientWalletU sampleSigFrom rawAgentAction
      usdSendPayloadTypes "HyperliquidTransaction:UsdSend" true).2 ≠
        rawAgentAction ∧
    (createAgentTypedData rawAgentAction true).2 ≠ rawAgentAction := by
  exact ⟨by decide, by decide⟩

/-- C8 (amended): the only mutation any signing operation performs is the
hyperliquidChain stamp — signUserSignedAction (hence the usd-transfer,
withdraw and agent wrappers, which delegate to it) and createAgentTypedData
set hyperliquidChain to the network marker, every other field of the action
is unchanged, the mutated object is the typed-data message, and a call whose
action already carries the matching stamp leaves the object value-unchanged. -/
theorem userAction_mutation_spec :
    (∀ (wallet : JsWallet UserAction) (sigFrom : String → Signature)
        (action : UserAction) (payloadTypes : List FieldDef)
        (primaryType : String) (isMainnet : Bool),
      (signUserSignedAction wallet sigFrom action payloadTypes primaryType
        isMainnet).2 = stampChain action isMainnet ∧
      (stampChain action isMainnet).signatureChainId = action.signatureChainId ∧
      (stampChain action isMainnet).fields = action.fields ∧
      (stampChain action isMainnet).hyperliquidChain =
        some (if isMainnet then "Mainnet" else "Testnet") ∧
      (action.hyperliquidChain = some (if isMainnet then "Mainnet" else "Testnet") →
        (signUserSignedAction wallet sigFrom action payloadTypes primaryType
          isMainnet).2 = action)) ∧
    (∀ (action : UserAction) (isMainnet : Bool),
      (createAgentTypedData action isMainnet).2 = stampChain action isMainnet ∧
      (createAgentTypedData action isMainnet).1.message =
        (createAgentTypedData action isMainnet).2 ∧
      (createAgentTypedData action isMainnet).1.action =
        (createAgentTypedData action isMainnet).2) ∧
    (∀ (wallet : JsWallet UserAction) (sigFrom : String → Signature)
        (action : UserAction) (isMainnet : Bool),
      signUsdTransferAction wallet sigFrom action isMainnet =
        signUserSignedAction wallet sigFrom action usdSendPayloadTypes
          "HyperliquidTransaction:UsdSend" isMainnet ∧
      signWithdrawFromBridgeAction wallet sigFrom action isMainnet =
        signUserSignedAction wallet sigFrom action usdSendPayloadTypes
          "HyperliquidTransaction:Withdraw" isMainnet ∧
      signAgent wallet sigFrom action isMainnet =
        signUserSignedAction wallet sigFrom action approveAgentPayloadTypes
          "HyperliquidTransaction:ApproveAgent" isMainnet) := by
  refine ⟨?_, ?_, ?_⟩
  · intro wallet sigFrom action payloadTypes primaryType isMainnet
    refine ⟨rfl, rfl, rfl, rfl, ?_⟩
    intro hch
    show stampChain action isMainnet = action
    cases action with
    | mk sci hc fl =>
        rw [stampChain]
        simp only [UserAction.mk.injEq, true_and, and_true]
        exact hch.symm
  · intro action isMainnet
    exact ⟨rfl, rfl, rfl⟩
  · intro wallet sigFrom action isMainnet
    exact ⟨rfl, rfl, rfl⟩

/-- C8 witness: an action already stamped for mainnet is value-unchanged by
a further signUserSignedAction call. -/
theorem userAction_mutation_spec_witness :
    (stampChain rawAgentAction true).hyperliquidChain = some "Mainnet" ∧
    (signUserSignedAction clientWalletU sampleSigFrom
      (stampChain rawAgentAction true) usdSendPayloadTypes
      "HyperliquidTransaction:UsdSend" true).2 = stampChain rawAgentAction true := by
  refine ⟨by with_unfolding_all rfl, ?_⟩
  exact (userAction_mutation_spec.1 clientWalletU sampleSigFrom
    (stampChain rawAgentAction true) usdSendPayloadTypes
    "HyperliquidTransaction:UsdSend" true).2.2.2.2 (by with_unfolding_all rfl)

/-- C9: floatToInt scales by ten to the decimal places and fails with the
rounding-loss error exactly when rounding moves the scaled value by at
least 1e-3; on success it returns the scaled value rounded to the nearest
integer (ties toward positive infinity, which is the unique nearest
integer within the tolerance); floatToIntForHashing and floatToUsdInt are
its 8- and 6-place instantiations. -/
theorem floatToInt_spec :
    (∀ (x : ℚ) (power : Nat),
      (floatToInt x power = .error "floatToInt causes rounding" ↔
        1 / 1000 ≤ |(mathRound (x * 10 ^ power) : ℚ) - x * 10 ^ power|) ∧
      (∀ n : ℤ, floatToInt x power = .ok n →
        n = mathRound (x * 10 ^ power) ∧
        |(n : ℚ) - x * 10 ^ power| < 1 / 1000 ∧
        ∀ m : ℤ, |(n : ℚ) - x * 10 ^ power| ≤ |(m : ℚ) - x * 10 ^ power|)) ∧
    (∀ x : ℚ,
      floatToIntForHashing x = floatToInt x 8 ∧
      floatToUsdInt x = floatToInt x 6) := by
  constructor
  · intro x power
    by_cases hc : (1:ℚ) / 1000 ≤ |(mathRound (x * 10 ^ power) : ℚ) - x * 10 ^ power|
    · have hfi : floatToInt x power = .error "floatToInt causes rounding" := by
        simp only [floatToInt, if_pos hc]
      refine ⟨⟨fun _ => hc, fun _ => hfi⟩, ?_⟩
      intro n hn
      rw [hfi] at hn
      exact absurd hn (by simp)
    · have hfi : floatToInt x power = .ok (mathRound (x * 10 ^ power)) := by
        simp only [floatToInt, if_neg hc]
      have hlt : |(mathRound (x * 10 ^ power) : ℚ) - x * 10 ^ power| < 1 / 1000 :=
        lt_of_not_le hc
      refine ⟨⟨fun h => ?_, fun h => absurd h hc⟩, ?_⟩
      · rw [hfi] at h
        exact absurd h (by simp)
      · intro n hn
        rw [hfi] at hn
        simp only [Except.ok.injEq] at hn
        subst hn
        exact ⟨rfl, hlt, fun m => mathRound_nearest _ m⟩
  · intro x
    exact ⟨rfl, rfl⟩

/-- C9 witness: the characterization applied at `x = 3/2`, `power = 8`. -/
theorem floatToInt_spec_witness :
    floatToInt (3 / 2) 8 = .ok 150000000 ∧
    (150000000 : ℤ) = mathRound ((3 / 2 : ℚ) * 10 ^ 8) := by
  refine ⟨by with_unfolding_all rfl, ?_⟩
  exact ((floatToInt_spec.1 (3 / 2) 8).2 150000000 (by with_unfolding_all rfl)).1

/-- C6: evaluation of the placeOrdersTpSl resolution loop at a batch of two
orders on the same coin: the external resolver is invoked once per order —
twice for the single distinct coin ETH — because the method resolves every
order directly, never consulting its declared memo cache. -/
theorem placeOrdersTpSl_duplicate_lookup :
    (placeOrdersTpSlLookups constResolver [ethOrder, ethOrder]).1 = ["ETH", "ETH"] ∧
    [ethOrder, ethOrder].map Order.coin = ["ETH", "ETH"] ∧
    (["ETH", "ETH"] : List String).dedup = ["ETH"] := by
  refine ⟨by with_unfolding_all rfl, rfl, by decide⟩

end Hyperliquid
